import Mathlib

/-!
Verification of the findstar repository (src/findstar.py): a shallow
embedding of its cache-backed paginated fetch pipeline and keyword-matching
engine, with theorems settling the specification claims.

Modelling conventions:
- Python strings are Lean `String`s; `s.split("\x7bsep\x7d")` is modelled by
  `pySplit`, `g in line` (substring test) by `pyIn`, `int(s)` by `pyInt`.
- Fallible Python code (uncaught exceptions) is modelled with `Except Unit`.
- The external HTTP transport is a black box (`Network`), as in the spec.
- The zlib and json library calls are modelled symbolically: `Payload`
  distinguishes a JSON text that parses to a list of record dictionaries
  from a text that fails `json.loads`; `CacheBytes` distinguishes a valid
  zlib stream from the empty byte string and from invalid streams (zlib's
  `decompress` raises `zlib.error` on the latter two).
-/

namespace Findstar

/-- `startsWithCL hay needle`: does the char list `hay` start with `needle`?
Building block for Python's substring test. -/
def startsWithCL : List Char → List Char → Bool
  | _, [] => true
  | [], _ :: _ => false
  | c :: cs, d :: ds => c == d && startsWithCL cs ds

/-- `containsCL hay needle`: does `needle` occur contiguously inside `hay`?
Models Python's `needle in hay` on strings (via their char lists). -/
def containsCL : List Char → List Char → Bool
  | [], needle => needle.isEmpty
  | c :: t, needle => startsWithCL (c :: t) needle || containsCL t needle

/-- Python's `g in line` substring test (case-sensitive, literal). -/
def pyIn (g line : String) : Bool :=
  containsCL line.toList g.toList

/-- `pySplitAux sep fuel l`: split `l` at every occurrence of the non-empty
separator `sep`, scanning left to right (Python `str.split(sep)` semantics).
`fuel` is an upper bound on `l.length`; each recursive call consumes at
least one character, so the fuel never runs out when initialized to
`l.length`. -/
def pySplitAux (sep : List Char) : Nat → List Char → List (List Char)
  | _, [] => [[]]
  | 0, l => [l]
  | f + 1, c :: rest =>
    if startsWithCL (c :: rest) sep then
      [] :: pySplitAux sep f ((c :: rest).drop sep.length)
    else
      match pySplitAux sep f rest with
      | [] => [[c]]
      | t :: ts => (c :: t) :: ts

/-- Python `s.split(sep)` for a non-empty separator (the only way the source
calls it: separators "\x0a" and "&page="). -/
def pySplit (sep s : String) : List String :=
  if sep.toList = [] then [s]
  else (pySplitAux sep.toList s.toList.length s.toList).map (fun cs => String.mk cs)

/-- Digit value of a character, `none` for non-digits. -/
def digitVal (c : Char) : Option Nat :=
  if '0' ≤ c ∧ c ≤ '9' then some (c.toNat - '0'.toNat) else none

/-- Accumulating decimal parse of a digit string; `none` if any character is
not a digit. -/
def pyNatAux : List Char → Nat → Option Nat
  | [], acc => some acc
  | c :: cs, acc =>
    match digitVal c with
    | none => none
    | some d => pyNatAux cs (acc * 10 + d)

/-- Python `int(s)` on the optionally-signed digit strings that occur here
(`none` models the `ValueError` raised on anything else). -/
def pyInt (s : String) : Option Int :=
  match s.toList with
  | [] => none
  | '-' :: cs =>
    match cs with
    | [] => none
    | _ => (pyNatAux cs 0).map (fun n => -(n : Int))
  | cs => (pyNatAux cs 0).map (fun n => (n : Int))

/-- The `Star` class of findstar.py: one normalized starred-repository
record. `description` is `none` when the API returned null; `readme` is
`Option String` so that a null stored value can be expressed (the fetcher
itself always stores a string, possibly empty). `matches` is the transient
field set by `Findstar.filter_stars`. -/
structure Star where
  id : Int
  name : String
  owner : String
  full_name : String
  html_url : String
  default_branch : String
  description : Option String
  readme : Option String
  «matches» : List String
deriving DecidableEq, Repr

/-- One relation parsed from the "link" HTTP header by
`requests.utils.parse_header_links`: a `rel` name mapped to a URL. -/
structure Link where
  rel : String
  url : String
deriving DecidableEq, Repr

/-- `int(rel["url"].split("&page=")[1])` from `Findstar.parse_link_header`:
`Except.error` models the uncaught `IndexError` (no "&page=" in the URL) or
`ValueError` (non-numeric page). -/
def extractPage (url : String) : Except Unit Int :=
  match (pySplit "&page=" url).get? 1 with
  | none => Except.error ()
  | some s =>
    match pyInt s with
    | none => Except.error ()
    | some n => Except.ok n

/-- The `for rel in link:` loop of `Findstar.parse_link_header`: each
`rel="last"` entry (re)assigns the local `last_page`; the accumulator is
`none` while `last_page` is still unassigned. -/
def linkLoop : List Link → Option Int → Except Unit (Option Int)
  | [], acc => Except.ok acc
  | r :: rest, acc =>
    if r.rel = "last" then
      match extractPage r.url with
      | Except.error e => Except.error e
      | Except.ok n => linkLoop rest (some n)
    else linkLoop rest acc

/-- `Findstar.parse_link_header`: `none` input models a response without a
"link" header (then `last_page = 1`); `some rels` models a present header as
parsed into relations. If the header is present but the loop never assigns
`last_page`, returning it raises `UnboundLocalError`, modelled by
`Except.error ()`. -/
def parse_link_header (link : Option (List Link)) : Except Unit Int :=
  match link with
  | none => Except.ok 1
  | some rels =>
    match linkLoop rels none with
    | Except.error e => Except.error e
    | Except.ok none => Except.error ()
    | Except.ok (some n) => Except.ok n

deriving instance DecidableEq for Except

/-- One raw repository object from the listing endpoint's JSON body, with
the fields `Findstar.fetch_page` extracts (`star["id"]`, ..., nullable
`star["description"]`). -/
structure RawEntry where
  id : Int
  name : String
  owner : String
  full_name : String
  html_url : String
  default_branch : String
  description : Option String
deriving DecidableEq, Repr

/-- One HTTP response of the listing endpoint: its (already parsed) "link"
header, and the outcome of `json.loads(r.text)` followed by the extraction
of the raw entries (`Except.error` models a body on which that extraction
raises, e.g. a non-success JSON object instead of a list). -/
structure PageResponse where
  linkHeader : Option (List Link)
  body : Except Unit (List RawEntry)
deriving DecidableEq

/-- The external HTTP transport, as a black box: `respOf p` is the outcome
of `requests.get` for listing page `p` (`Except.error` models a raised
network error), and `readmeOf full_name default_branch` is the text
`Findstar.fetch_readme` returns (already "" for any non-200 status, which
that method treats as "no README"). -/
structure Network where
  respOf : Int → Except Unit PageResponse
  readmeOf : String → String → String

/-- The `Star(...)` construction in `Findstar.fetch_page`: normalize one raw
entry, resolving the README via `fetch_readme`; `matches` starts empty. -/
def mkStar (net : Network) (e : RawEntry) : Star :=
  { id := e.id, name := e.name, owner := e.owner, full_name := e.full_name,
    html_url := e.html_url, default_branch := e.default_branch,
    description := e.description,
    readme := some (net.readmeOf e.full_name e.default_branch),
    «matches» := [] }

/-- `Findstar.fetch_page`: issue the request, on page 1 (re)derive
`self.last_page` from the link header, then build the page's records.
Returns the page's records together with the value of `self.last_page`
after the call. -/
def fetch_page (net : Network) (last_page : Int) (page : Int) :
    Except Unit (List Star × Int) :=
  match net.respOf page with
  | Except.error e => Except.error e
  | Except.ok r =>
    match (if page = 1 then parse_link_header r.linkHeader else Except.ok last_page) with
    | Except.error e => Except.error e
    | Except.ok lp =>
      match r.body with
      | Except.error e => Except.error e
      | Except.ok entries => Except.ok (entries.map (mkStar net), lp)

/-- Python `range(2, last_page + 1)` over `Int`: the pages fetched by the
loop in `Findstar.fetch_stars`. -/
def pythonRange2 (last_page : Int) : List Int :=
  (List.range (last_page - 1).toNat).map (fun i => 2 + Int.ofNat i)

/-- All pages a complete run touches, in order: `1 :: [2 .. last_page]`. -/
def pageList (last_page : Int) : List Int :=
  1 :: pythonRange2 last_page

/-- The `for page in range(2, self.last_page+1)` loop of
`Findstar.fetch_stars`: each iteration appends the fetched page to
`self.stars` (`acc`); `reqs` records the page indexes requested so far. -/
def fetch_loop (net : Network) (lp : Int) :
    List Int → List Star → List Int → Except Unit (List Star × List Int)
  | [], acc, reqs => Except.ok (acc, reqs)
  | p :: rest, acc, reqs =>
    match fetch_page net lp p with
    | Except.error e => Except.error e
    | Except.ok (s, _) => fetch_loop net lp rest (acc ++ s) (reqs ++ [p])

/-- `Findstar.fetch_stars`: fetch page 1 (which sets `self.last_page`),
then pages `2 .. last_page` if `last_page > 1`. Returns the concatenated
records, the discovered `last_page`, and the list of pages requested. -/
def fetch_stars (net : Network) : Except Unit (List Star × Int × List Int) :=
  match fetch_page net 1 1 with
  | Except.error e => Except.error e
  | Except.ok (s1, lp) =>
    if lp > 1 then
      match fetch_loop net lp (pythonRange2 lp) s1 [1] with
      | Except.error e => Except.error e
      | Except.ok (stars, reqs) => Except.ok (stars, lp, reqs)
    else Except.ok (s1, lp, [1])

/-- The decompressed text of a cache entry, as far as `json.loads` is
concerned: either a JSON array of record dictionaries, or a text on which
`json.loads` raises `json.JSONDecodeError`. -/
inductive Payload where
  | jsonOf (stars : List Star) : Payload
  | notJson : Payload
deriving DecidableEq

/-- The byte content of a per-user cache file: a valid zlib stream (with
its decompressed payload), the empty byte string (what `create_file` /
`empty` leave behind), or bytes that are not a zlib stream at all. -/
inductive CacheBytes where
  | zlibOf (p : Payload) : CacheBytes
  | emptyBytes : CacheBytes
  | invalidBytes : CacheBytes
deriving DecidableEq

/-- `zlib.decompress`: inverts `zlib.compress`; raises `zlib.error`
(modelled by `none`) on the empty byte string (incomplete stream) and on
bytes that are not a zlib stream. -/
def zlib_decompress : CacheBytes → Option Payload
  | CacheBytes.zlibOf p => some p
  | CacheBytes.emptyBytes => none
  | CacheBytes.invalidBytes => none

/-- `zlib.compress` of a serialized payload. -/
def zlib_compress (p : Payload) : CacheBytes :=
  CacheBytes.zlibOf p

/-- `json.loads` on a decompressed payload: `none` models the raised
`json.JSONDecodeError`. -/
def json_loads : Payload → Option (List Star)
  | Payload.jsonOf stars => some stars
  | Payload.notJson => none

/-- `Star(**star)` applied to a stored record dictionary: every field is
read back from the dictionary except `matches`, which `Star.__init__`
resets to `[]` (the stored `matches` key is accepted but ignored). -/
def starOfDict (d : Star) : Star :=
  { d with «matches» := [] }

namespace Cache

/-- `Cache.read`: decompress, decode and deserialize the entry. Only
`json.JSONDecodeError` is caught (returning `[]`); a `zlib.error` raised by
`decompress` — in particular on an empty or non-zlib entry — propagates to
the caller, modelled by `Except.error ()`. -/
def read (b : CacheBytes) : Except Unit (List Star) :=
  match zlib_decompress b with
  | none => Except.error ()
  | some p =>
    match json_loads p with
    | none => Except.ok []
    | some ds => Except.ok (ds.map starOfDict)

/-- `Cache.write`: `compress(json.dumps([vars(star) for star in stars]))` —
note `vars(star)` serializes every attribute, `matches` included. -/
def write (stars : List Star) : CacheBytes :=
  zlib_compress (Payload.jsonOf stars)

end Cache

/-- One observable operation on the per-user cache file, in the order the
run performs them. -/
inductive CacheOp where
  | opEmpty : CacheOp
  | opCreate : CacheOp
  | opWrite (b : CacheBytes) : CacheOp
  | opRead : CacheOp
deriving DecidableEq

/-- How a sync run terminates abnormally: a listing-endpoint failure raised
out of `fetch_stars`, or a `zlib.error` raised out of `Cache.read`. -/
inductive RunError where
  | fetchError : RunError
  | cacheReadError : RunError
deriving DecidableEq

/-- The cache/fetch orchestration of `Findstar.__init__` (the Sync
Controller): given the mode (`flush`), the transport and the cache file's
prior state (`none` = no file), it returns the cache file's final state,
the trace of cache operations performed, and either the in-memory record
list or the propagated error. -/
def syncRun (flush : Bool) (net : Network) (cache0 : Option CacheBytes) :
    Option CacheBytes × List CacheOp × Except RunError (List Star) :=
  if flush then
    let t1 := if cache0.isSome then [CacheOp.opEmpty] else [CacheOp.opCreate]
    match fetch_stars net with
    | Except.error _ => (some CacheBytes.emptyBytes, t1, Except.error RunError.fetchError)
    | Except.ok (stars, _, _) =>
      (some (Cache.write stars), t1 ++ [CacheOp.opWrite (Cache.write stars)],
        Except.ok stars)
  else
    match cache0 with
    | none =>
      match fetch_stars net with
      | Except.error _ => (none, [], Except.error RunError.fetchError)
      | Except.ok (stars, _, _) =>
        (some (Cache.write stars),
          [CacheOp.opCreate, CacheOp.opWrite (Cache.write stars)],
          Except.ok stars)
    | some b =>
      match Cache.read b with
      | Except.error _ => (some b, [CacheOp.opRead], Except.error RunError.cacheReadError)
      | Except.ok stars => (some b, [CacheOp.opRead], Except.ok stars)

/-- `getattr(star, key).split("\x0a")`: raises `AttributeError` (modelled by
`Except.error ()`) when the field is `None`. -/
def getattr_split (f : Option String) : Except Unit (List String) :=
  match f with
  | none => Except.error ()
  | some s => Except.ok (pySplit "\n" s)

/-- The per-field body of the `for key in ["description", "readme"]` loop
of `Findstar.filter_stars`: split the field into lines and keep the lines
containing any keyword; the `except AttributeError: pass` turns a `None`
field into no lines at all. -/
def tryLines (greps : List String) (f : Option String) : List String :=
  match getattr_split f with
  | Except.error _ => []
  | Except.ok lines => lines.filter (fun line => greps.any (fun g => pyIn g line))

/-- The candidate-match lines `Findstar.filter_stars` collects for one
record: description lines first, then README lines. -/
def starMatches (greps : List String) (star : Star) : List String :=
  tryLines greps star.description ++ tryLines greps star.readme

/-- `Findstar.filter_stars`: per record, collect the candidate-match lines;
if non-empty, attach them and include the record — under AND mode only if
every keyword occurs in at least one of the attached lines. -/
def filter_stars : List Star → List String → Bool → List Star
  | [], _, _ => []
  | star :: rest, greps, filter_and =>
    let ms := starMatches greps star
    if ms.isEmpty then filter_stars rest greps filter_and
    else
      let star' := { star with «matches» := ms }
      if filter_and then
        if greps.all (fun g => ms.any (fun line => pyIn g line)) then
          star' :: filter_stars rest greps filter_and
        else filter_stars rest greps filter_and
      else star' :: filter_stars rest greps filter_and

/-- The lines of one text field as the loop sees them: none for a `None`
field, Python `split("\x0a")` otherwise. -/
def fieldLines : Option String → List String
  | none => []
  | some s => pySplit "\n" s

/-! ### Correctness of the substring primitive -/

theorem startsWithCL_nil_needle (h : List Char) : startsWithCL h [] = true := by
  cases h <;> rfl

theorem startsWithCL_cons_cons (c d : Char) (cs ds : List Char) :
    startsWithCL (c :: cs) (d :: ds) = (c == d && startsWithCL cs ds) := rfl

theorem containsCL_nil (n : List Char) : containsCL [] n = n.isEmpty := rfl

theorem containsCL_cons (c : Char) (t n : List Char) :
    containsCL (c :: t) n = (startsWithCL (c :: t) n || containsCL t n) := rfl

theorem startsWithCL_eq_true_iff :
    ∀ (n h : List Char), startsWithCL h n = true ↔ ∃ t, h = n ++ t := by
  intro n
  induction n with
  | nil =>
    intro h
    simp [startsWithCL_nil_needle]
  | cons d ds ih =>
    intro h
    cases h with
    | nil =>
      constructor
      · intro hfalse
        cases hfalse
      · rintro ⟨t, ht⟩
        cases ht
    | cons c cs =>
      rw [startsWithCL_cons_cons]
      simp only [Bool.and_eq_true, beq_iff_eq, ih cs]
      constructor
      · rintro ⟨rfl, t, rfl⟩
        exact ⟨t, rfl⟩
      · rintro ⟨t, ht⟩
        rw [List.cons_append, List.cons_eq_cons] at ht
        exact ⟨ht.1, t, ht.2⟩

theorem containsCL_eq_true_iff :
    ∀ (h n : List Char), containsCL h n = true ↔ ∃ l r, h = l ++ n ++ r := by
  intro h
  induction h with
  | nil =>
    intro n
    rw [containsCL_nil, List.isEmpty_iff]
    constructor
    · rintro rfl
      exact ⟨[], [], rfl⟩
    · rintro ⟨l, r, hl⟩
      have h2 := hl.symm
      rw [List.append_eq_nil, List.append_eq_nil] at h2
      exact h2.1.2
  | cons c t ih =>
    intro n
    rw [containsCL_cons]
    simp only [Bool.or_eq_true, startsWithCL_eq_true_iff, ih]
    constructor
    · rintro (⟨s, hs⟩ | ⟨l, r, hl⟩)
      · exact ⟨[], s, by simpa using hs⟩
      · exact ⟨c :: l, r, by simp [hl]⟩
    · rintro ⟨l, r, hl⟩
      cases l with
      | nil => exact Or.inl ⟨r, by simpa using hl⟩
      | cons x xs =>
        rw [List.cons_append, List.cons_append, List.cons_eq_cons] at hl
        exact Or.inr ⟨xs, r, by simp [hl.2]⟩

/-- Python's `g in line` holds exactly when `g`'s characters occur as a
contiguous block inside `line`'s characters. -/
theorem pyIn_eq_true_iff (g line : String) :
    pyIn g line = true ↔ ∃ l r, line.toList = l ++ g.toList ++ r :=
  containsCL_eq_true_iff line.toList g.toList

/-! ### Structure of the match engine -/

theorem tryLines_eq_fieldLines (greps : List String) (f : Option String) :
    tryLines greps f
      = (fieldLines f).filter (fun line => greps.any (fun g => pyIn g line)) := by
  cases f <;> simp [tryLines, getattr_split, fieldLines]

theorem starMatches_eq_filter (greps : List String) (star : Star) :
    starMatches greps star
      = (fieldLines star.description ++ fieldLines star.readme).filter
          (fun line => greps.any (fun g => pyIn g line)) := by
  simp [starMatches, tryLines_eq_fieldLines, List.filter_append]

theorem starMatches_nil_greps (star : Star) : starMatches [] star = [] := by
  simp [starMatches_eq_filter]

theorem filter_stars_nil (greps : List String) (filter_and : Bool) :
    filter_stars [] greps filter_and = [] := rfl

theorem filter_stars_cons (star : Star) (rest : List Star) (greps : List String)
    (filter_and : Bool) :
    filter_stars (star :: rest) greps filter_and
      = (let ms := starMatches greps star
         if ms.isEmpty then filter_stars rest greps filter_and
         else
           let star' := { star with «matches» := ms }
           if filter_and then
             if greps.all (fun g => ms.any (fun line => pyIn g line)) then
               star' :: filter_stars rest greps filter_and
             else filter_stars rest greps filter_and
           else star' :: filter_stars rest greps filter_and) := rfl

/-! ### Claims about the match engine -/

/-- C10: filtering any record list with an empty keyword list returns an
empty result, in OR mode and in AND mode alike: with zero keywords no line
is ever a candidate match, so every record is excluded. -/
theorem c10_empty_keywords (stars : List Star) (filter_and : Bool) :
    filter_stars stars [] filter_and = [] := by
  induction stars with
  | nil => rfl
  | cons s rest ih =>
    rw [filter_stars_cons]
    simp [starMatches_nil_greps, ih]

/-- C7: under AND mode, a record with a non-empty candidate-match line list
is included exactly when every keyword occurs as a substring of at least
one of its match lines (different keywords may be satisfied by different
lines); per-record inclusion is independent of the rest of the list. -/
theorem c7_and_mode (star : Star) (greps : List String)
    (h : starMatches greps star ≠ []) :
    filter_stars [star] greps true
      = (if greps.all (fun g => (starMatches greps star).any (fun line => pyIn g line))
         then [{ star with «matches» := starMatches greps star }] else [])
    ∧ ∀ (rest : List Star),
        filter_stars (star :: rest) greps true
          = filter_stars [star] greps true ++ filter_stars rest greps true := by
  have hne : (starMatches greps star).isEmpty = false := by
    cases hm : (starMatches greps star).isEmpty
    · rfl
    · exact absurd (List.isEmpty_iff.mp hm) h
  constructor
  · rw [filter_stars_cons]
    by_cases hall : greps.all
        (fun g => (starMatches greps star).any (fun line => pyIn g line)) = true
    · simp [hne, hall, filter_stars_nil]
    · simp [hne, hall, filter_stars_nil]
  · intro rest
    rw [filter_stars_cons, filter_stars_cons]
    by_cases hall : greps.all
        (fun g => (starMatches greps star).any (fun line => pyIn g line)) = true
    · simp [hne, hall, filter_stars_nil]
    · simp [hne, hall, filter_stars_nil]

/-- C8: for a non-empty keyword list, a record's `matches` are exactly the
lines of its description and README (split on newlines, description lines
first, internal order preserved) containing at least one keyword as a
case-sensitive literal substring; under OR mode the record is included
exactly when that list is non-empty. -/
theorem c8_candidate_lines (greps : List String) (star : Star) (_hg : greps ≠ []) :
    (∀ g line, pyIn g line = true ↔ ∃ l r, line.toList = l ++ g.toList ++ r)
    ∧ starMatches greps star
        = (fieldLines star.description ++ fieldLines star.readme).filter
            (fun line => greps.any (fun g => pyIn g line))
    ∧ filter_stars [star] greps false
        = (if (starMatches greps star).isEmpty then []
           else [{ star with «matches» := starMatches greps star }]) := by
  refine ⟨pyIn_eq_true_iff, starMatches_eq_filter greps star, ?_⟩
  rw [filter_stars_cons]
  by_cases hm : (starMatches greps star).isEmpty = true
  · simp [hm, filter_stars_nil]
  · simp [hm, filter_stars_nil]

/-- C9: a record whose README is null is processed without error — the
`AttributeError` on `None.split` is caught, so the null field contributes
no candidate lines and only the (non-empty) description is scanned; the
same holds symmetrically for a null description. -/
theorem c9_null_field (greps : List String) (star : Star) (d : String)
    (h1 : star.description = some d) (h2 : star.readme = none) (_h3 : d ≠ "") :
    starMatches greps star
      = (pySplit "\n" d).filter (fun line => greps.any (fun g => pyIn g line))
    ∧ tryLines greps star.readme = []
    ∧ (∀ s2 : Star, s2.description = none →
        starMatches greps s2 = tryLines greps s2.readme) := by
  refine ⟨?_, ?_, ?_⟩
  · rw [starMatches, h1, h2]
    simp [tryLines, getattr_split]
  · rw [h2]
    rfl
  · intro s2 hd2
    rw [starMatches, hd2]
    simp [tryLines, getattr_split]

/-- A record whose description contains "cache" only and whose README
contains "proxy" only, on different lines (the spec's AND-mode example). -/
def starAB : Star :=
  { id := 7, name := "r", owner := "o", full_name := "o/r", html_url := "u",
    default_branch := "main", description := some "has cache",
    readme := some "has proxy", «matches» := [] }

/-- A record with a two-line description and a null README. -/
def starD : Star :=
  { id := 8, name := "r2", owner := "o", full_name := "o/r2", html_url := "u2",
    default_branch := "main", description := some "a b\nc", readme := none,
    «matches» := [] }

theorem c7_and_mode_witness :
    starMatches ["cache", "proxy"] starAB ≠ []
    ∧ filter_stars [starAB] ["cache", "proxy"] true
        = [{ starAB with «matches» := starMatches ["cache", "proxy"] starAB }] := by
  have h := c7_and_mode starAB ["cache", "proxy"] (by decide)
  refine ⟨by decide, ?_⟩
  rw [h.1]
  decide

theorem c8_candidate_lines_witness :
    starMatches ["b"] starD
      = (fieldLines starD.description ++ fieldLines starD.readme).filter
          (fun line => (["b"] : List String).any (fun g => pyIn g line))
    ∧ filter_stars [starD] ["b"] false
        = (if (starMatches ["b"] starD).isEmpty then []
           else [{ starD with «matches» := starMatches ["b"] starD }]) := by
  have h := c8_candidate_lines ["b"] starD (by decide)
  exact ⟨h.2.1, h.2.2⟩

theorem c9_null_field_witness :
    starMatches ["b"] starD
      = (pySplit "\n" "a b\nc").filter
          (fun line => (["b"] : List String).any (fun g => pyIn g line))
    ∧ tryLines ["b"] starD.readme = [] :=
  ⟨(c9_null_field ["b"] starD "a b\nc" rfl rfl (by decide)).1,
   (c9_null_field ["b"] starD "a b\nc" rfl rfl (by decide)).2.1⟩

/-! ### Claims about the cache store -/

/-- C5: writing any record sequence and reading it back reproduces every
record exactly up to the transient `matches` field (which `Star.__init__`
resets to `[]`); all other fields — including a `none` description versus
an empty-string readme — survive unchanged, and the compression applied by
`write` is inverted by `read` before deserializing. -/
theorem c5_cache_roundtrip (R : List Star) :
    Cache.read (Cache.write R)
        = Except.ok (R.map (fun s => { s with «matches» := ([] : List String) }))
    ∧ zlib_decompress (Cache.write R) = some (Payload.jsonOf R)
    ∧ ∀ s : Star,
        ({ s with «matches» := ([] : List String) } : Star).id = s.id
        ∧ ({ s with «matches» := ([] : List String) } : Star).name = s.name
        ∧ ({ s with «matches» := ([] : List String) } : Star).owner = s.owner
        ∧ ({ s with «matches» := ([] : List String) } : Star).full_name = s.full_name
        ∧ ({ s with «matches» := ([] : List String) } : Star).html_url = s.html_url
        ∧ ({ s with «matches» := ([] : List String) } : Star).default_branch
            = s.default_branch
        ∧ ({ s with «matches» := ([] : List String) } : Star).description = s.description
        ∧ ({ s with «matches» := ([] : List String) } : Star).readme = s.readme :=
  ⟨rfl, rfl, fun _ => ⟨rfl, rfl, rfl, rfl, rfl, rfl, rfl, rfl⟩⟩

/-- C1 counterexample: a cache entry that exists but is empty makes
`Cache.read` raise (`zlib.error` escapes the `except json.JSONDecodeError`
clause) instead of returning an empty sequence. -/
theorem c1_read_never_raises_cex :
    Cache.read CacheBytes.emptyBytes = Except.error ()
    ∧ Cache.read CacheBytes.emptyBytes ≠ Except.ok ([] : List Star) :=
  ⟨rfl, by decide⟩

/-- C1 (amended): `Cache.read` returns an empty sequence only when the
entry's bytes decompress successfully but the decompressed text fails JSON
deserialization; an empty entry, or bytes that are not a valid zlib
stream, make `read` raise to the caller. -/
theorem c1_read_corrupt_amended :
    Cache.read (CacheBytes.zlibOf Payload.notJson) = Except.ok ([] : List Star)
    ∧ Cache.read CacheBytes.emptyBytes = Except.error ()
    ∧ Cache.read CacheBytes.invalidBytes = Except.error () :=
  ⟨rfl, rfl, rfl⟩

/-! ### Claims about pagination metadata parsing -/

theorem linkLoop_cons (r : Link) (rest : List Link) (acc : Option Int) :
    linkLoop (r :: rest) acc
      = (if r.rel = "last" then
           match extractPage r.url with
           | Except.error e => Except.error e
           | Except.ok n => linkLoop rest (some n)
         else linkLoop rest acc) := rfl

theorem linkLoop_no_last :
    ∀ (rels : List Link), (∀ r ∈ rels, r.rel ≠ "last") →
      ∀ acc, linkLoop rels acc = Except.ok acc := by
  intro rels
  induction rels with
  | nil =>
    intro _ acc
    rfl
  | cons r rest ih =>
    intro h acc
    rw [linkLoop_cons, if_neg (h r (List.mem_cons_self r rest))]
    exact ih (fun x hx => h x (List.mem_cons_of_mem r hx)) acc

/-- C4 counterexample: a first-page response whose link header is present
but carries no `rel=last` relation does not default to 1 — the local
`last_page` is never assigned and returning it raises `UnboundLocalError`. -/
theorem c4_default_last_page_cex :
    parse_link_header (some [{ rel := "next", url := "u&page=2" }]) = Except.error ()
    ∧ parse_link_header (some [{ rel := "next", url := "u&page=2" }]) ≠ Except.ok 1 :=
  ⟨rfl, by decide⟩

/-- C4 (amended): if the first-page response carries no link header at all,
the last-page index defaults to 1; but if a link header is present and
contains no `rel=last` relation, `parse_link_header` raises
(`UnboundLocalError`) instead of defaulting. -/
theorem c4_link_header_amended (rels : List Link)
    (h : ∀ r ∈ rels, r.rel ≠ "last") :
    parse_link_header none = Except.ok 1
    ∧ parse_link_header (some rels) = Except.error () := by
  refine ⟨rfl, ?_⟩
  have hloop := linkLoop_no_last rels h none
  simp [parse_link_header, hloop]

theorem c4_link_header_amended_witness :
    parse_link_header none = Except.ok 1
    ∧ parse_link_header (some [{ rel := "prev", url := "u&page=1" }]) = Except.error () :=
  c4_link_header_amended [{ rel := "prev", url := "u&page=1" }] (by decide)

/-! ### Claims about the paginated fetch -/

theorem fetch_loop_nil (net : Network) (lp : Int) (acc : List Star) (reqs : List Int) :
    fetch_loop net lp [] acc reqs = Except.ok (acc, reqs) := rfl

theorem fetch_loop_cons (net : Network) (lp p : Int) (rest : List Int)
    (acc : List Star) (reqs : List Int) :
    fetch_loop net lp (p :: rest) acc reqs
      = (match fetch_page net lp p with
         | Except.error e => Except.error e
         | Except.ok (s, _) => fetch_loop net lp rest (acc ++ s) (reqs ++ [p])) := rfl

theorem fetch_loop_ok (net : Network) (lp : Int) (f : Int → List Star) :
    ∀ (pages : List Int) (acc : List Star) (reqs : List Int),
      (∀ p ∈ pages, fetch_page net lp p = Except.ok (f p, lp)) →
      fetch_loop net lp pages acc reqs
        = Except.ok (pages.foldl (fun a p => a ++ f p) acc, reqs ++ pages) := by
  intro pages
  induction pages with
  | nil =>
    intro acc reqs _
    simp [fetch_loop_nil]
  | cons p rest ih =>
    intro acc reqs h
    rw [fetch_loop_cons]
    simp only [h p (List.mem_cons_self p rest)]
    rw [ih (acc ++ f p) (reqs ++ [p]) (fun x hx => h x (List.mem_cons_of_mem p hx))]
    simp

theorem mem_pythonRange2 (lp p : Int) (hp : p ∈ pythonRange2 lp) : 2 ≤ p := by
  simp only [pythonRange2, List.mem_map, List.mem_range] at hp
  obtain ⟨i, _, rfl⟩ := hp
  have hnn : (0 : Int) ≤ Int.ofNat i := Int.ofNat_nonneg i
  omega

theorem pageList_length (lp : Int) (h : 1 ≤ lp) : (pageList lp).length = lp.toNat := by
  rw [pageList, List.length_cons, pythonRange2, List.length_map, List.length_range]
  omega

/-- C6: if the first page's response discovers last-page index `N ≥ 1` and
every page responds successfully, the run requests exactly the pages
`1 :: [2 .. N]` — `N` fetches in all — and the resulting record sequence is
the concatenation of the per-page record sequences in page order (the
code's `+=` accumulation, no re-sorting); moreover pages other than 1 never
re-derive the pagination metadata, which thus comes from page 1 alone. -/
theorem c6_pagination_complete (net : Network) (resp : Int → PageResponse)
    (entries : Int → List RawEntry) (N : Int)
    (hresp : ∀ p, net.respOf p = Except.ok (resp p))
    (hbody : ∀ p, (resp p).body = Except.ok (entries p))
    (hlink : parse_link_header (resp 1).linkHeader = Except.ok N)
    (hN : 1 ≤ N) :
    fetch_stars net
        = Except.ok
            ((pageList N).foldl (fun acc p => acc ++ (entries p).map (mkStar net)) [],
              N, pageList N)
    ∧ (pageList N).length = N.toNat
    ∧ (∀ lp p, p ≠ 1 →
        fetch_page net lp p = Except.ok ((entries p).map (mkStar net), lp)) := by
  have hfp1 : fetch_page net 1 1 = Except.ok ((entries 1).map (mkStar net), N) := by
    simp [fetch_page, hresp 1, hlink, hbody 1]
  have hfpl : ∀ lp p, p ≠ 1 →
      fetch_page net lp p = Except.ok ((entries p).map (mkStar net), lp) := by
    intro lp p hp
    simp [fetch_page, hresp p, hbody p, hp]
  refine ⟨?_, pageList_length N hN, hfpl⟩
  have hrest : ∀ p ∈ pythonRange2 N,
      fetch_page net N p = Except.ok ((entries p).map (mkStar net), N) := by
    intro p hp
    exact hfpl N p (by have := mem_pythonRange2 N p hp; omega)
  by_cases h1 : N > 1
  · rw [fetch_stars]
    simp only [hfp1]
    rw [if_pos h1,
      fetch_loop_ok net N (fun p => (entries p).map (mkStar net))
        (pythonRange2 N) ((entries 1).map (mkStar net)) [1] hrest]
    simp [pageList]
  · rw [fetch_stars]
    simp only [hfp1]
    rw [if_neg h1]
    have hN1 : N = 1 := by omega
    subst hN1
    norm_num [pageList, pythonRange2]

/-- Two listing pages of one record each; page 1's link header announces
`last=2`, later pages carry no link header. -/
def entriesW (p : Int) : List RawEntry :=
  [{ id := p, name := "n", owner := "o", full_name := "o/n", html_url := "u",
     default_branch := "main", description := none }]

def respW (p : Int) : PageResponse :=
  { linkHeader := if p = 1 then some [{ rel := "last", url := "u&page=2" }] else none,
    body := Except.ok (entriesW p) }

def netW : Network :=
  { respOf := fun p => Except.ok (respW p), readmeOf := fun _ _ => "" }

theorem c6_pagination_complete_witness :
    fetch_stars netW
        = Except.ok
            ((pageList 2).foldl (fun acc p => acc ++ (entriesW p).map (mkStar netW)) [],
              2, pageList 2)
    ∧ (pageList 2).length = (2 : Int).toNat := by
  have h := c6_pagination_complete netW respW entriesW 2 (fun p => rfl) (fun p => rfl)
    (by decide) (by decide)
  exact ⟨h.1, h.2.1⟩

/-! ### Claims about the sync controller -/

theorem fetch_page_matches_nil (net : Network) (lp0 p : Int) (s : List Star)
    (lp : Int) (h : fetch_page net lp0 p = Except.ok (s, lp)) :
    ∀ x ∈ s, x.«matches» = [] := by
  unfold fetch_page at h
  cases hr : net.respOf p with
  | error e =>
    simp only [hr] at h
    exact Except.noConfusion h
  | ok r =>
    simp only [hr] at h
    cases hl : (if p = 1 then parse_link_header r.linkHeader else Except.ok lp0) with
    | error e =>
      simp only [hl] at h
      exact Except.noConfusion h
    | ok lp2 =>
      simp only [hl] at h
      cases hb : r.body with
      | error e =>
        simp only [hb] at h
        exact Except.noConfusion h
      | ok entries =>
        simp only [hb, Except.ok.injEq, Prod.mk.injEq] at h
        intro x hx
        rw [← h.1] at hx
        simp only [List.mem_map] at hx
        obtain ⟨e, _, rfl⟩ := hx
        rfl

theorem fetch_loop_matches_nil (net : Network) (lp : Int) :
    ∀ (pages : List Int) (acc : List Star) (reqs : List Int)
      (out : List Star) (oreqs : List Int),
      (∀ x ∈ acc, x.«matches» = []) →
      fetch_loop net lp pages acc reqs = Except.ok (out, oreqs) →
      ∀ x ∈ out, x.«matches» = [] := by
  intro pages
  induction pages with
  | nil =>
    intro acc reqs out oreqs hacc h
    rw [fetch_loop_nil] at h
    simp only [Except.ok.injEq, Prod.mk.injEq] at h
    rw [← h.1]
    exact hacc
  | cons p rest ih =>
    intro acc reqs out oreqs hacc h
    rw [fetch_loop_cons] at h
    cases hp : fetch_page net lp p with
    | error e =>
      simp only [hp] at h
      exact Except.noConfusion h
    | ok sl =>
      obtain ⟨s, lp2⟩ := sl
      simp only [hp] at h
      have hs := fetch_page_matches_nil net lp p s lp2 hp
      refine ih (acc ++ s) (reqs ++ [p]) out oreqs ?_ h
      intro x hx
      rcases List.mem_append.mp hx with hx1 | hx2
      · exact hacc x hx1
      · exact hs x hx2

theorem fetch_stars_matches_nil (net : Network) (stars : List Star) (lp : Int)
    (reqs : List Int) (h : fetch_stars net = Except.ok (stars, lp, reqs)) :
    ∀ x ∈ stars, x.«matches» = [] := by
  unfold fetch_stars at h
  cases h1 : fetch_page net 1 1 with
  | error e =>
    simp only [h1] at h
    exact Except.noConfusion h
  | ok sl =>
    obtain ⟨s1, lp1⟩ := sl
    simp only [h1] at h
    have hs1 := fetch_page_matches_nil net 1 1 s1 lp1 h1
    by_cases hgt : lp1 > 1
    · rw [if_pos hgt] at h
      cases h2 : fetch_loop net lp1 (pythonRange2 lp1) s1 [1] with
      | error e =>
        simp only [h2] at h
        exact Except.noConfusion h
      | ok pr =>
        obtain ⟨out, oreqs⟩ := pr
        simp only [h2, Except.ok.injEq, Prod.mk.injEq] at h
        have := fetch_loop_matches_nil net lp1 (pythonRange2 lp1) s1 [1]
          out oreqs hs1 h2
        rw [← h.1]
        exact this
    · rw [if_neg hgt] at h
      simp only [Except.ok.injEq, Prod.mk.injEq] at h
      rw [← h.1]
      exact hs1

theorem starOfDict_eq_self (s : Star) (h : s.«matches» = []) : starOfDict s = s := by
  cases s
  simp only at h
  rw [starOfDict, h]

theorem read_write_of_matches_nil (stars : List Star)
    (h : ∀ s ∈ stars, s.«matches» = []) :
    Cache.read (Cache.write stars) = Except.ok stars := by
  have hmap : ∀ (l : List Star), (∀ s ∈ l, s.«matches» = []) →
      l.map starOfDict = l := by
    intro l
    induction l with
    | nil => intro _; rfl
    | cons a t ih =>
      intro hl
      rw [List.map_cons, starOfDict_eq_self a (hl a (List.mem_cons_self a t)),
        ih (fun x hx => hl x (List.mem_cons_of_mem a hx))]
  show Except.ok (stars.map starOfDict) = Except.ok stars
  rw [hmap stars h]

/-- A transport whose listing endpoint always fails (network error). -/
def netFail : Network :=
  { respOf := fun _ => Except.error (), readmeOf := fun _ _ => "" }

/-- C2 counterexample: in forced-refresh mode the cache entry is emptied
*before* the listing fetch, so a run whose listing fetch fails does not
leave the cache holding the bytes it held before the run. -/
theorem c2_no_cache_mutation_cex :
    fetch_stars netFail = Except.error ()
    ∧ (syncRun true netFail (some (Cache.write [starAB]))).1
        ≠ some (Cache.write [starAB]) :=
  ⟨rfl, by decide⟩

/-- C2 (amended): if the listing fetch fails, the run aborts with a
propagated error; in normal-use mode the cache entry is left exactly as it
was and no write is performed, while in forced-refresh mode the entry has
already been emptied (or created empty) before the fetch, so the failed
run leaves an empty entry; in both modes no cache write occurs after the
failure. -/
theorem c2_failed_fetch_cache_amended (net : Network) (cache0 : Option CacheBytes)
    (hfail : fetch_stars net = Except.error ()) :
    (syncRun false net cache0).1 = cache0
    ∧ (syncRun true net cache0).1 = some CacheBytes.emptyBytes
    ∧ (∀ b, CacheOp.opWrite b ∉ (syncRun false net cache0).2.1)
    ∧ (∀ b, CacheOp.opWrite b ∉ (syncRun true net cache0).2.1) := by
  cases cache0 with
  | none =>
    refine ⟨?_, ?_, ?_, ?_⟩ <;> simp [syncRun, hfail]
  | some b =>
    cases hr : Cache.read b with
    | error e =>
      refine ⟨?_, ?_, ?_, ?_⟩ <;> simp [syncRun, hfail, hr]
    | ok stars =>
      refine ⟨?_, ?_, ?_, ?_⟩ <;> simp [syncRun, hfail, hr]

theorem c2_failed_fetch_cache_amended_witness :
    (syncRun false netFail none).1 = none
    ∧ (syncRun true netFail none).1 = some CacheBytes.emptyBytes
    ∧ CacheOp.opWrite (Cache.write []) ∉ (syncRun true netFail none).2.1 := by
  have h := c2_failed_fetch_cache_amended netFail none rfl
  exact ⟨h.1, h.2.1, h.2.2.2 (Cache.write [])⟩

/-- The record sequence `fetch_stars` produces on the two-page transport
`netW`. -/
def starsW : List Star :=
  (entriesW 1).map (mkStar netW) ++ (entriesW 2).map (mkStar netW)

/-- C3 counterexample: on a fresh cache the normal-use run creates and
writes the cache but performs no read at all — the in-memory records are
the fetched ones, not a re-deserialization of the persisted entry. -/
theorem c3_read_back_cex :
    CacheOp.opRead ∉ (syncRun false netW none).2.1
    ∧ (syncRun false netW none).2.1
        = [CacheOp.opCreate, CacheOp.opWrite (Cache.write starsW)]
    ∧ (syncRun false netW none).2.2 = Except.ok starsW :=
  ⟨by decide, by decide, by decide⟩

/-- C3 (amended): in normal-use mode, an existing cache entry is read and
its records become the in-memory view; with no entry, the controller
fetches all pages, creates the cache and writes it, but does not read it
back — the in-memory view is the fetched sequence itself. Since freshly
fetched records carry an empty `matches` field, that view still coincides
with what deserializing the just-written entry would have produced. -/
theorem c3_normal_mode_amended (net : Network) (stars : List Star) (lp : Int)
    (reqs : List Int) (hfetch : fetch_stars net = Except.ok (stars, lp, reqs))
    (b : CacheBytes) (rstars : List Star)
    (hread : Cache.read b = Except.ok rstars) :
    syncRun false net (some b) = (some b, [CacheOp.opRead], Except.ok rstars)
    ∧ syncRun false net none
        = (some (Cache.write stars),
            [CacheOp.opCreate, CacheOp.opWrite (Cache.write stars)], Except.ok stars)
    ∧ CacheOp.opRead ∉ (syncRun false net none).2.1
    ∧ Cache.read (Cache.write stars) = Except.ok stars := by
  refine ⟨?_, ?_, ?_, ?_⟩
  · simp [syncRun, hread]
  · simp [syncRun, hfetch]
  · simp [syncRun, hfetch]
  · exact read_write_of_matches_nil stars (fetch_stars_matches_nil net stars lp reqs hfetch)

theorem c3_normal_mode_amended_witness :
    syncRun false netW (some (Cache.write []))
        = (some (Cache.write []), [CacheOp.opRead], Except.ok ([] : List Star))
    ∧ Cache.read (Cache.write starsW) = Except.ok starsW := by
  have h := c3_normal_mode_amended netW starsW 2 (pageList 2) (by decide)
    (Cache.write []) [] rfl
  exact ⟨h.1, h.2.2.2⟩

end Findstar
